import Mathlib

/-!
# Verification of the AUTOOPS statistical engine and historical store

Shallow embedding of `src/tools/stats_tools.py` (`StatsTools`) and
`src/tools/memory_store.py` (`MemoryStore`), together with theorems
settling the frozen claims about them.

Numbers are modelled by exact rationals (`ℚ`); a missing cell (`NaN`)
is `none`.  Where the source compares a quantity involving a square
root against a threshold, the embedding uses the equivalent squared
comparison so as to remain inside `ℚ` (the equivalence is noted at each
definition).  Python `round(x, k)` is modelled by exact decimal
round-half-to-even.
-/

namespace AutoOps

/-! ## Preliminaries -/

/-- Little-endian decimal digits with explicit fuel (structurally
recursive, so the kernel can evaluate it); with fuel `≥ n` it agrees with
`Nat.digits 10 n`, which is how injectivity is proved below. -/
def digitsRev : ℕ → ℕ → List ℕ
  | 0, _ => []
  | f+1, n => if n = 0 then [] else n % 10 :: digitsRev f (n / 10)

/-- Decimal rendering of a natural number, modelling Python `str(n)` and the
digit fields of `strftime`. -/
def natStr (n : ℕ) : String :=
  if n = 0 then "0" else String.mk (((digitsRev n n).reverse).map Nat.digitChar)

/-- Python string comparison `a < b`: lexicographic on code points. -/
def chLt : List Char → List Char → Bool
  | [], [] => false
  | [], _ :: _ => true
  | _ :: _, [] => false
  | x :: xs, y :: ys => if x < y then true else if y < x then false else chLt xs ys

/-- Zero-pad to two digits, modelling the strftime fields `%m` / `%d`. -/
def pad2 (n : ℕ) : String := if n < 10 then "0" ++ natStr n else natStr n

/-- Zero-pad to four digits, modelling the strftime field `%Y`. -/
def pad4 (n : ℕ) : String :=
  if n < 10 then "000" ++ natStr n
  else if n < 100 then "00" ++ natStr n
  else if n < 1000 then "0" ++ natStr n
  else natStr n

/-- `YYYY-MM-DD`, modelling `strftime('%Y-%m-%d')`. -/
def fmtDate (y m d : ℕ) : String := pad4 y ++ "-" ++ pad2 m ++ "-" ++ pad2 d

/-- Round-half-to-even to an integer, the rounding mode of Python `round`.
The float representation error of the original is abstracted away by
computing on exact rationals. -/
def roundHalfEven (q : ℚ) : ℤ :=
  let f : ℤ := ⌊q⌋
  let r : ℚ := q - f
  if r < 1/2 then f else if 1/2 < r then f + 1 else if f % 2 = 0 then f else f + 1

/-- Python `round(x, 2)`. -/
def pyRound2 (q : ℚ) : ℚ := (roundHalfEven (q * 100) : ℚ) / 100

/-- Python string comparison `a >= b`, i.e. `not (a < b)`. -/
def strGe (a b : String) : Bool := ! chLt a.data b.data

/-- Python string slicing `s[:n]` (by characters, i.e. code points). -/
def strTake (s : String) (n : ℕ) : String := String.mk (s.data.take n)

/-! ## SeriesStats (`src/tools/stats_tools.py`)

A column is the list of its cells, `none` modelling a missing value; a
table is an association list of named columns. -/

abbrev Column := List (Option ℚ)

abbrev Table := List (String × Column)

/-- `df[column]`, `none` when the column is absent from the table. -/
def getCol (df : Table) (c : String) : Option Column :=
  (df.find? (fun p => p.1 == c)).map Prod.snd

/-- `Series.dropna()`: the non-missing cells, in row order. -/
def dropna (col : Column) : List ℚ := col.filterMap id

/-- Arithmetic mean (`Series.mean()` on non-empty data). -/
def meanQ (xs : List ℚ) : ℚ := xs.sum / xs.length

/-- Sum of squared deviations from the mean. -/
def ssq (xs : List ℚ) : ℚ := (xs.map (fun x => (x - meanQ xs)^2)).sum

/-- `Series.quantile(p)` with pandas' default linear interpolation over the
sorted data; `none` (NaN) on an empty series. -/
def quantileQ (xs : List ℚ) (p : ℚ) : Option ℚ :=
  match xs.length with
  | 0 => none
  | Nat.succ m =>
    let s := List.insertionSort (α := ℚ) (· ≤ ·) xs
    let pos : ℚ := p * m
    let i : ℕ := (⌊pos⌋).toNat
    let lo : ℚ := s.getD i 0
    some (lo + (pos - i) * (s.getD (i+1) lo - lo))

/-- The typed failure taxonomy named by the specification.  The source code
realises errors differently (or not at all); the constructors exist so
that the error-handling claims are statable against the embedding. -/
inductive StatsErr where
  | emptyInput
  | insufficientData
deriving DecidableEq

/-- The record built by `calculate_basic_stats` for a present column.
`stdSq` carries the sample variance (`ddof=1`); the source reports its
square root, which is irrational in general — the square root is strictly
monotone and NaN exactly when `stdSq` is `none`, so nothing the claims
inspect is lost. -/
structure BasicStats where
  mean : Option ℚ
  median : Option ℚ
  stdSq : Option ℚ
  min : Option ℚ
  max : Option ℚ
  q25 : Option ℚ
  q75 : Option ℚ
  count : ℕ
deriving DecidableEq

/-- Outcome of `calculate_basic_stats`: the `{}` dictionary for a missing
column, a typed error (never produced by the source — claim C3), or the
statistics record. -/
inductive BasicStatsResult where
  | emptyDict
  | err (e : StatsErr)
  | stats (s : BasicStats)
deriving DecidableEq

/-- `StatsTools.calculate_basic_stats`: returns `{}` when the column is
absent, otherwise drops missing values and computes the aggregates.
pandas yields NaN aggregates on an empty series (and a NaN `std` already
for a single point, since `ddof=1`), modelled as `none`. -/
def calculate_basic_stats (df : Table) (column : String) : BasicStatsResult :=
  match getCol df column with
  | none => .emptyDict
  | some col =>
    let data := dropna col
    .stats {
      mean := if data.length = 0 then none else some (meanQ data)
      median := quantileQ data (1/2)
      stdSq := if data.length < 2 then none
               else some (ssq data / ((data.length - 1 : ℕ) : ℚ))
      min := data.min?
      max := data.max?
      q25 := quantileQ data (1/4)
      q75 := quantileQ data (3/4)
      count := data.length }

/-! ### detect_trend -/

/-- The rows `(Date, value)` of the column analysed by `detect_trend`
(the source does not drop missing values here; the claims about it range
over fully populated numeric columns). -/
abbrev TrendRows := List (String × ℚ)

/-- `df.sort_values('Date')`: ascending by date, `a` before `b` when
`¬ b < a`. -/
def sortByDate (rows : TrendRows) : TrendRows :=
  List.insertionSort (fun a b : String × ℚ => chLt b.1.data a.1.data = false) rows

/-- The overall growth rate computed by `detect_trend`: over the
date-sorted values, `(last - first)/|first| * 100`, a zero first value
being replaced by `0.01`; `0` when fewer than two rows exist. -/
def totalGrowth (rows : TrendRows) : ℚ :=
  let values := (sortByDate rows).map Prod.snd
  if 1 < values.length then
    let fv := values.headD 0
    let first_val := if fv ≠ 0 then fv else 1/100
    let last_val := values.getLastD 0
    ((last_val - first_val) / |first_val|) * 100
  else 0

inductive TrendDirection where
  | upward
  | downward
  | stable
deriving DecidableEq

/-- The threshold classification of `detect_trend`. -/
def trendDirection (g : ℚ) : TrendDirection :=
  if 5 < g then .upward else if g < -5 then .downward else .stable

/-- The fields of the `detect_trend` result that the claims consume (the
moving average, period-change and volatility fields are additional outputs
of the source not mentioned by any claim; volatility is a standard
deviation, irrational over ℚ). -/
structure TrendResult where
  column : String
  total_growth_pct : ℚ
  trend_direction : TrendDirection
deriving DecidableEq

/-- `StatsTools.detect_trend`: direction classified from the raw growth
value, the reported growth percentage rounded to two decimals. -/
def detect_trend (column : String) (rows : TrendRows) : TrendResult :=
  { column := column
    total_growth_pct := pyRound2 (totalGrowth rows)
    trend_direction := trendDirection (totalGrowth rows) }

/-! ### detect_anomalies -/

/-- The z-score flag of `detect_anomalies(method='zscore')`.
`scipy.stats.zscore` normalises by the population standard deviation
(`ddof=0`, its default).  Over the reals, for `n = |data|`, `m` its mean
and `SS` its sum of squared deviations, `|v - m| / sqrt(SS/n) > 3` iff
`n * (v - m)^2 > 9 * SS` (both sides nonnegative, squaring monotone);
the embedding uses the squared form to stay inside `ℚ`.  A zero variance
makes every z-score NaN in the source, which compares false against the
threshold — and the squared form is then `0 > 0`, false as well. -/
def popZFlag (data : List ℚ) (v : ℚ) : Bool :=
  decide (9 * ssq data < (data.length : ℚ) * (v - meanQ data)^2)

/-- The flag claim C1 asserts instead: the same threshold against the
sample standard deviation (`ddof=1`): over the reals
`|v - m| / sqrt(SS/(n-1)) > 3` iff `(n-1) * (v - m)^2 > 9 * SS` for
`n ≥ 2`; for `n ≤ 1` the sample std is NaN and nothing is flagged,
matching `0 * (v-m)^2 > 9 * SS` being false. -/
def sampleZFlag (data : List ℚ) (v : ℚ) : Bool :=
  decide (9 * ssq data < ((data.length - 1 : ℕ) : ℚ) * (v - meanQ data)^2)

/-- A flagged point: its position within the non-missing data (as produced
by `np.where`) and its value. -/
structure AnomalyPoint where
  idx : ℕ
  value : ℚ
deriving DecidableEq

/-- The full flagged list of the z-score method, in row order. -/
def anomalyIndices (data : List ℚ) : List AnomalyPoint :=
  (data.enum.map fun p => AnomalyPoint.mk p.1 p.2).filter
    fun a => popZFlag data a.value

structure AnomalyResult where
  column : String
  anomalies_found : ℕ
  anomalies : List AnomalyPoint
  anomaly_rate : ℚ
deriving DecidableEq

/-- Outcome of `detect_anomalies`: the `{}` dictionary for a missing
column, the `ZeroDivisionError` raised by
`len(anomalies) / len(data)` when the column has zero non-missing
values, or the result dictionary. -/
inductive AnomalyOutcome where
  | emptyDict
  | zeroDivisionError
  | ok (r : AnomalyResult)
deriving DecidableEq

/-- `StatsTools.detect_anomalies(method='zscore')`: `{}` for a missing
column; otherwise missing values are dropped and every point with
`|z| > 3` is flagged.  The result reports the true count, the detail
list truncated to the first 10 flagged points in row order, and
`anomaly_rate = round(len(anomalies)/len(data)*100, 2)` — whose division
raises `ZeroDivisionError` when zero non-missing values remain (an empty
series produces no flags, so the raise is reached). -/
def detect_anomalies (df : Table) (column : String) : AnomalyOutcome :=
  match getCol df column with
  | none => .emptyDict
  | some col =>
    let data := dropna col
    let anoms := anomalyIndices data
    if data.length = 0 then .zeroDivisionError
    else
      .ok { column := column
            anomalies_found := anoms.length
            anomalies := anoms.take 10
            anomaly_rate :=
              pyRound2 ((anoms.length : ℚ) / (data.length : ℚ) * 100) }

/-! ### calculate_correlation -/

/-- Outcome of `calculate_correlation`: the `{}` dictionary when a column
is absent; the `{'error': 'Insufficient data for correlation'}` dictionary
(the source's realisation of the specification's `InsufficientDataError`)
when fewer than 2 aligned observations remain; otherwise the correlation
entry, whose numeric fields (Pearson/Spearman coefficients and p-values,
irrational over ℚ and outside every claim's scope) are functions of the
aligned observations carried by `ok`. -/
inductive CorrOutcome where
  | emptyDict
  | insufficientData
  | ok (pairs : List (ℚ × ℚ))
deriving DecidableEq

/-- `df[[col1, col2]].dropna()`: rows where both cells are present. -/
def alignedPairs (c1 c2 : Column) : List (ℚ × ℚ) :=
  (c1.zip c2).filterMap fun p =>
    match p.1, p.2 with
    | some a, some b => some (a, b)
    | _, _ => none

/-- `StatsTools.calculate_correlation`. -/
def calculate_correlation (df : Table) (col1 col2 : String) : CorrOutcome :=
  match getCol df col1, getCol df col2 with
  | some c1, some c2 =>
    let cleaned := alignedPairs c1 c2
    if cleaned.length < 2 then .insufficientData else .ok cleaned
  | _, _ => .emptyDict

/-! ### correlation_matrix -/

/-- One entry of the `top_correlations` list: the column pair, its
coefficient, and its position in the source's row-major enumeration of
pairs `i < j` (the position materialises the stability of Python's
`list.sort`, see `correlation_matrix`). -/
structure CorrPair where
  col1 : String
  col2 : String
  coef : ℚ
  idx : ℕ
deriving DecidableEq

/-- Sorting relation of the top list: strictly larger absolute coefficient
first, ties by enumeration position.  Python's `list.sort(key=abs(...),
reverse=True)` is stable, and a stable descending sort by key is exactly
the sort by this lexicographic relation on (|key| desc, position asc). -/
def corrRank (a b : CorrPair) : Prop :=
  |b.coef| < |a.coef| ∨ (|a.coef| = |b.coef| ∧ a.idx ≤ b.idx)

instance : DecidableRel corrRank := fun a b => by
  unfold corrRank; infer_instance

instance : IsTotal CorrPair corrRank := by
  constructor
  intro a b
  rcases lt_trichotomy (|a.coef|) (|b.coef|) with h | h | h
  · exact Or.inr (Or.inl h)
  · rcases Nat.le_total a.idx b.idx with hi | hi
    · exact Or.inl (Or.inr ⟨h, hi⟩)
    · exact Or.inr (Or.inr ⟨h.symm, hi⟩)
  · exact Or.inl (Or.inl h)

instance : IsTrans CorrPair corrRank := by
  constructor
  intro a b c hab hbc
  rcases hab with h1 | ⟨e1, i1⟩
  · rcases hbc with h2 | ⟨e2, _⟩
    · exact Or.inl (h2.trans h1)
    · exact Or.inl (e2 ▸ h1)
  · rcases hbc with h2 | ⟨e2, i2⟩
    · exact Or.inl (e1.symm ▸ h2)
    · exact Or.inr ⟨e1.trans e2, i1.trans i2⟩

/-- Row-major enumeration of column pairs `i < j`, as produced by the
nested loops of `correlation_matrix`. -/
def colPairs : List String → List (String × String)
  | [] => []
  | c :: rest => (rest.map fun d => (c, d)) ++ colPairs rest

/-- The source's `correlations` list: one entry per enumerated pair,
tagged with its enumeration position. -/
def corrEntries (valid : List String) (coef : String → String → ℚ) :
    List CorrPair :=
  (colPairs valid).enum.map fun p =>
    CorrPair.mk p.2.1 p.2.2 (coef p.2.1 p.2.2) p.1

/-- `StatsTools.correlation_matrix`.  `names` are the numeric columns of
the table (in table order); the requested `columns` are filtered to those.
`none` models the `{'error': 'Need at least 2 numeric columns'}` return.
The numeric coefficient of each pair (a Pearson coefficient, irrational
over ℚ and universally quantified in the claims) enters through the
oracle `coef`.  The result is the `top_correlations` list: the pair
entries sorted by descending absolute coefficient (stable, hence the
`corrRank` order on enumeration-indexed entries), truncated to 5. -/
def correlation_matrix (names : List String) (columns : List String)
    (coef : String → String → ℚ) : Option (List CorrPair) :=
  let valid := columns.filter (fun c => names.contains c)
  if valid.length < 2 then none
  else some ((List.insertionSort corrRank (corrEntries valid coef)).take 5)

/-! ## HistoricalStore (`src/tools/memory_store.py`)

The persisted JSON document is modelled by `Memory`; the arbitrary JSON
payloads of sessions are modelled by opaque strings; every dictionary is
an insertion-ordered association list, as Python dictionaries are.  Each
operation takes the wall-clock strings it reads from `datetime.now()` as
explicit arguments. -/

structure Session where
  session_id : String
  timestamp : String
  data : String
deriving DecidableEq

structure Insight where
  category : String
  text : String
  timestamp : String
deriving DecidableEq

abbrev KpiMap := List (String × ℚ)

abbrev KpiHistory := List (String × KpiMap)

structure Memory where
  sessions : List Session
  kpi_history : KpiHistory
  insights : List Insight
  total_sessions : ℕ
deriving DecidableEq

/-- The document written by `_initialize_memory`. -/
def initMemory : Memory := ⟨[], [], [], 0⟩

/-- The session id format of `store_session`:
`f"session_{count}_{now:%Y%m%d_%H%M%S}"`. -/
def mkSessionId (count : ℕ) (ts : String) : String :=
  "session_" ++ natStr count ++ "_" ++ ts

/-- `MemoryStore.store_session`: assigns the id from the current session
count plus one and the compact timestamp `tsId`, appends the record with
the ISO timestamp `tsIso`, increments the `total_sessions` counter, and
returns the id. -/
def store_session (m : Memory) (tsId tsIso payload : String) :
    String × Memory :=
  let sid := mkSessionId (m.sessions.length + 1) tsId
  (sid, { m with
            sessions := m.sessions ++ [⟨sid, tsIso, payload⟩]
            total_sessions := m.total_sessions + 1 })

/-- `MemoryStore.get_recent_sessions`: Python `sessions[-n:]`; for `n = 0`
the slice `[-0:]` is the whole list. -/
def get_recent_sessions (m : Memory) (n : ℕ) : List Session :=
  if n = 0 then m.sessions else m.sessions.drop (m.sessions.length - n)

/-- `dict` assignment `mp[k] = v`: replace in place if the key exists,
else append. -/
def setKey (mp : KpiMap) (k : String) (v : ℚ) : KpiMap :=
  if mp.any (fun p => p.1 == k) then
    mp.map (fun p => if p.1 == k then (k, v) else p)
  else mp ++ [(k, v)]

/-- `dict.update`: last write wins per key, new keys appended in their
order of appearance. -/
def kpiUpdate (mp newKpis : KpiMap) : KpiMap :=
  newKpis.foldl (fun acc p => setKey acc p.1 p.2) mp

/-- The per-date merge of `store_kpi_snapshot`: create the date entry if
absent, then `update` it with the new values. -/
def histUpdate (h : KpiHistory) (date : String) (kpis : KpiMap) : KpiHistory :=
  if h.any (fun p => p.1 == date) then
    h.map (fun p => if p.1 == date then (p.1, kpiUpdate p.2 kpis) else p)
  else h ++ [(date, kpiUpdate [] kpis)]

/-- `MemoryStore.store_kpi_snapshot`. -/
def store_kpi_snapshot (m : Memory) (date : String) (kpis : KpiMap) : Memory :=
  { m with kpi_history := histUpdate m.kpi_history date kpis }

/-- `MemoryStore.store_kpi_snapshots_batch`: one merge per date, in a
single load/persist cycle. -/
def store_kpi_snapshots_batch (m : Memory) (snaps : List (String × KpiMap)) :
    Memory :=
  { m with kpi_history :=
      snaps.foldl (fun h p => histUpdate h p.1 p.2) m.kpi_history }

/-- `MemoryStore.store_insight`: stamp with the current time, append,
then keep only the last 100 (`insights[-100:]` under the guard
`len > 100`). -/
def store_insight (m : Memory) (i : Insight) (now : String) : Memory :=
  let l' := m.insights ++ [{ i with timestamp := now }]
  { m with insights := if 100 < l'.length then l'.drop (l'.length - 100) else l' }

/-- The inline history gathering of `compare_with_history` (also the body
of `get_kpi_history`): every `(date, value)` of the KPI, in history order. -/
def historyFor (h : KpiHistory) (kpi : String) : List (String × ℚ) :=
  h.filterMap fun p => (p.2.find? (fun q => q.1 == kpi)).map (fun q => (p.1, q.2))

/-- `sorted(dates, reverse=True)`: descending lexicographic sort, `a`
before `b` when `¬ a < b`. -/
def sortDatesDesc (ds : List String) : List String :=
  List.insertionSort (fun a b : String => chLt a.data b.data = false) ds

structure Comparison where
  current : ℚ
  historical_avg : Option ℚ
  change : Option ℚ
  change_pct : Option ℚ
  data_points : ℕ
deriving DecidableEq

/-- The `lookback` most recent historical values of a KPI, in
date-descending order: `sorted(history.keys(), reverse=True)[:lookback]`
then the corresponding values. -/
def recentValues (h : KpiHistory) (lookback : ℕ) (kpi : String) : List ℚ :=
  let hist := historyFor h kpi
  ((sortDatesDesc (hist.map Prod.fst)).take lookback).filterMap fun d =>
    (hist.find? (fun p => p.1 == d)).map Prod.snd

/-- The per-KPI body of `compare_with_history`: when the KPI has no
history, every derived field is `None` and `data_points = 0`; otherwise
the most recent `lookback` values are averaged
(`sum(historical_values) / len(historical_values)`, which raises
`ZeroDivisionError` — modelled `none` — when that list is empty, i.e.
when `lookback = 0`), and `change_pct = change / avg * 100`, `0` when the
average is zero. -/
def compareOne (h : KpiHistory) (lookback : ℕ) (kpi : String)
    (current : ℚ) : Option Comparison :=
  let hist := historyFor h kpi
  if hist.length = 0 then
    some ⟨current, none, none, none, 0⟩
  else
    let values := recentValues h lookback kpi
    if values.length = 0 then none
    else
      let avg := values.sum / (values.length : ℚ)
      let change := current - avg
      let pct := if avg ≠ 0 then change / avg * 100 else 0
      some ⟨current, some (pyRound2 avg), some (pyRound2 change),
        some (pyRound2 pct), values.length⟩

/-- `MemoryStore.compare_with_history`: one comparison per requested KPI,
built in request order; an exception raised for one KPI aborts the whole
call (`none`). -/
def compare_with_history (m : Memory) (current : List (String × ℚ))
    (lookback : ℕ) : Option (List (String × Comparison)) :=
  match current with
  | [] => some []
  | p :: rest =>
    match compareOne m.kpi_history lookback p.1 p.2 with
    | none => none
    | some c =>
      match compare_with_history m rest lookback with
      | none => none
      | some out => some ((p.1, c) :: out)

structure MemoryStats where
  total_sessions : ℕ
  total_insights : ℕ
  kpi_dates_tracked : ℕ
deriving DecidableEq

/-- `MemoryStore.get_memory_stats` (the two metadata timestamps are not
consumed by any claim). -/
def get_memory_stats (m : Memory) : MemoryStats :=
  ⟨m.total_sessions, m.insights.length, m.kpi_history.length⟩

/-- `MemoryStore.clear_old_data`, invoked when `datetime.now()` is the
date `(y, mo, d)`.  The source computes the cutoff as
`now.replace(day=now.day - days_to_keep)`; `datetime.replace` raises
`ValueError` unless `1 ≤ d - k` (the month's upper bound cannot be
exceeded since `k ≥ 0`), modelled by `none` — the exception propagates
and the persisted store is left unchanged.  Otherwise the cutoff string
is the `YYYY-MM-DD` rendering of `(y, mo, d - k)` and the three
collections are filtered by lexicographic comparison against it. -/
def clear_old_data (mem : Memory) (y mo d k : ℕ) : Option Memory :=
  if (d : ℤ) - (k : ℤ) < 1 then none
  else
    let cutoff := fmtDate y mo (d - k)
    some { mem with
      kpi_history := mem.kpi_history.filter fun p => strGe p.1 cutoff
      sessions := mem.sessions.filter fun s => strGe (strTake s.timestamp 10) cutoff
      insights := mem.insights.filter fun i => strGe (strTake i.timestamp 10) cutoff }

/-! ### The store's operations as a transition system (claim C10) -/

inductive Op where
  | storeSession (tsId tsIso payload : String)
  | storeKpiSnapshot (date : String) (kpis : KpiMap)
  | storeKpiBatch (snaps : List (String × KpiMap))
  | storeInsight (i : Insight) (now : String)
  | clearOldData (y mo d k : ℕ)

/-- Whether an operation is a `clear_old_data` call. -/
def Op.isClear : Op → Bool
  | .clearOldData _ _ _ _ => true
  | _ => false

/-- Effect of one mutating operation on the persisted document (a raising
`clear_old_data` leaves the document unwritten). -/
def applyOp (m : Memory) : Op → Memory
  | .storeSession a b c => (store_session m a b c).2
  | .storeKpiSnapshot d ks => store_kpi_snapshot m d ks
  | .storeKpiBatch s => store_kpi_snapshots_batch m s
  | .storeInsight i now => store_insight m i now
  | .clearOldData y mo d k => (clear_old_data m y mo d k).getD m

/-- States reachable from a fresh store without ever invoking
`clear_old_data`. -/
inductive ReachableNC : Memory → Prop where
  | init : ReachableNC initMemory
  | step (m : Memory) (op : Op) (h : ReachableNC m)
      (hop : op.isClear = false) : ReachableNC (applyOp m op)

/-! ## Claim theorems -/

/-- The `if`-chain of `detect_trend`'s direction classification, as three
iffs. -/
theorem trendDirection_iff (g : ℚ) :
    (trendDirection g = .upward ↔ 5 < g) ∧
    (trendDirection g = .downward ↔ g < -5) ∧
    (trendDirection g = .stable ↔ ¬ 5 < g ∧ ¬ g < -5) := by
  by_cases h1 : 5 < g <;> by_cases h2 : g < -5 <;>
    simp [trendDirection, h1, h2] <;> linarith

/-- **C4.** For every table with at least 2 rows, `detect_trend` returns
direction `upward` iff total growth `> 5`, `downward` iff total growth
`< -5`, and `stable` otherwise, where total growth is
`(last - first)/|first| * 100` over the date-sorted values with a zero
first value replaced by `0.01`; and the scenario table
`[(d1,100),(d2,110),(d3,90)]` yields total growth `-10` and direction
`downward`. -/
theorem C4_detect_trend_direction (column : String) (rows : TrendRows)
    (h : 2 ≤ rows.length) :
    ((detect_trend column rows).trend_direction = .upward ↔
      5 < totalGrowth rows) ∧
    ((detect_trend column rows).trend_direction = .downward ↔
      totalGrowth rows < -5) ∧
    ((detect_trend column rows).trend_direction = .stable ↔
      ¬ 5 < totalGrowth rows ∧ ¬ totalGrowth rows < -5) ∧
    totalGrowth rows =
      (let values := (sortByDate rows).map Prod.snd
       let fv := values.headD 0
       let first_val := if fv ≠ 0 then fv else 1/100
       (values.getLastD 0 - first_val) / |first_val| * 100) ∧
    detect_trend "Revenue" [("d1", 100), ("d2", 110), ("d3", 90)] =
      ⟨"Revenue", -10, .downward⟩ := by
  have hdir : (detect_trend column rows).trend_direction
      = trendDirection (totalGrowth rows) := rfl
  have hiff := trendDirection_iff (totalGrowth rows)
  have hlen : 1 < ((sortByDate rows).map Prod.snd).length := by
    simp only [List.length_map, sortByDate, List.length_insertionSort]
    omega
  refine ⟨hdir ▸ hiff.1, hdir ▸ hiff.2.1, hdir ▸ hiff.2.2, ?_, ?_⟩
  · simp only [totalGrowth]
    rw [if_pos hlen]
  · have hs : sortByDate [("d1", 100), ("d2", 110), ("d3", 90)]
        = [("d1", 100), ("d2", 110), ("d3", 90)] := by
      simp +decide [sortByDate, List.insertionSort, List.orderedInsert]
    have hg : totalGrowth [("d1", 100), ("d2", 110), ("d3", 90)] = -10 := by
      simp [totalGrowth, hs]
      norm_num
    simp [detect_trend, hg, trendDirection, pyRound2, roundHalfEven]
    norm_num [Int.fract]

/-- Witness for C4: the scenario table has 3 rows, direction `downward`,
reported growth `-10`. -/
theorem C4_witness :
    (detect_trend "Revenue"
      [("d1", 100), ("d2", 110), ("d3", 90)]).trend_direction
        = .downward ∧
    (detect_trend "Revenue"
      [("d1", 100), ("d2", 110), ("d3", 90)]).total_growth_pct = -10 := by
  have h := C4_detect_trend_direction "Revenue"
    [("d1", 100), ("d2", 110), ("d3", 90)] (by simp)
  exact ⟨by rw [h.2.2.2.2], by rw [h.2.2.2.2]⟩

/-- **C3 counterexample.** On a present column whose cells are all
missing, `calculate_basic_stats` does not fail with a typed
`EmptyInputError`: it returns a statistics record whose aggregates are
all NaN (`none`) with `count = 0`, contradicting the claim that zero
non-missing values produce a typed error rather than a result. -/
theorem C3_counterexample :
    calculate_basic_stats [("X", [none, none])] "X" =
      .stats ⟨none, none, none, none, none, none, none, 0⟩ ∧
    ∀ e, calculate_basic_stats [("X", [none, none])] "X" ≠ .err e := by
  have heq : calculate_basic_stats [("X", [none, none])] "X" =
      .stats ⟨none, none, none, none, none, none, none, 0⟩ := by
    simp +decide [calculate_basic_stats, getCol, dropna, quantileQ]
  exact ⟨heq, fun e hne => by rw [heq] at hne; exact BasicStatsResult.noConfusion hne⟩

/-- **C3 amended.** `calculate_basic_stats` drops missing values before
computing; when zero non-missing values remain it returns a statistics
record with every aggregate NaN (`none`) and `count = 0` — it never
produces a typed error (no `EmptyInputError` exists in the source). -/
theorem C3_basic_stats_empty (df : Table) (column : String) (col : Column)
    (hc : getCol df column = some col) (he : dropna col = []) :
    calculate_basic_stats df column =
      .stats ⟨none, none, none, none, none, none, none, 0⟩ ∧
    ∀ e, calculate_basic_stats df column ≠ .err e := by
  have heq : calculate_basic_stats df column =
      .stats ⟨none, none, none, none, none, none, none, 0⟩ := by
    unfold calculate_basic_stats
    rw [hc]
    simp [he, quantileQ]
  exact ⟨heq, fun e hne => by rw [heq] at hne; exact BasicStatsResult.noConfusion hne⟩

/-- Witness for C3's amended theorem at a concrete single-cell column. -/
theorem C3_witness :
    calculate_basic_stats [("Y", [none])] "Y" =
      .stats ⟨none, none, none, none, none, none, none, 0⟩ :=
  (C3_basic_stats_empty [("Y", [none])] "Y" [none] rfl rfl).1

/-- **C2 (code bug).** `clear_old_data` computes its cutoff with
`now.replace(day=now.day - days_to_keep)`; `datetime.replace` raises
`ValueError` whenever `days_to_keep` is at least the current day of the
month, so the default `days_to_keep = 90` raises on every calendar date
(day-of-month ≤ 31 < 90).  Evaluated at the concrete failing input —
invoked on 2026-10-12 with the default 90 — the call raises (modelled
`none`) for every store state, instead of completing and filtering. -/
theorem C2_clear_old_data_raises :
    ∀ mem, clear_old_data mem 2026 10 12 90 = none :=
  fun _ => rfl

/-- **C8.** `calculate_correlation` drops rows missing either value and
signals insufficient data (the source's
`{'error': 'Insufficient data for correlation'}`, realising the
specification's `InsufficientDataError`) exactly when fewer than 2
aligned observations remain; a missing column yields the `{}` dictionary,
not the error. -/
theorem C8_correlation_insufficient (df : Table) (c1 c2 : String) :
    (∀ k1 k2, getCol df c1 = some k1 → getCol df c2 = some k2 →
      (calculate_correlation df c1 c2 = .insufficientData ↔
        (alignedPairs k1 k2).length < 2)) ∧
    ((getCol df c1 = none ∨ getCol df c2 = none) →
      calculate_correlation df c1 c2 = .emptyDict) := by
  constructor
  · intro k1 k2 h1 h2
    unfold calculate_correlation
    rw [h1, h2]
    by_cases h : (alignedPairs k1 k2).length < 2
    · simp [h]
    · simp [h]
  · intro h
    unfold calculate_correlation
    rcases h with h | h
    · rw [h]
    · rw [h]
      cases getCol df c1 <;> rfl

/-- Witness for C8: one aligned observation out of two rows triggers the
insufficient-data outcome. -/
theorem C8_witness :
    calculate_correlation [("A", [some 1, none]), ("B", [none, some 2])]
      "A" "B" = .insufficientData := by
  have h := (C8_correlation_insufficient
      [("A", [some 1, none]), ("B", [none, some 2])] "A" "B").1
    [some 1, none] [none, some 2] rfl rfl
  exact h.mpr (by decide)

/-- The timestamp stamping `insight['timestamp'] = now` performed by
`store_insight` before appending. -/
def stampIns (p : Insight × String) : Insight := { p.1 with timestamp := p.2 }

/-- Folding `store_insight` keeps exactly the suffix of the last 100
stamped insights: from any state holding at most 100 insights, the result
of a call sequence is the tail of (existing ++ stamped inputs) past its
first `length - 100` elements. -/
theorem store_insight_foldl_eq (inputs : List (Insight × String)) :
    ∀ m : Memory, m.insights.length ≤ 100 →
      (inputs.foldl (fun acc p => store_insight acc p.1 p.2) m).insights
        = (m.insights ++ inputs.map stampIns).drop
            (m.insights.length + inputs.length - 100) := by
  induction inputs with
  | nil =>
    intro m hm
    simp [Nat.sub_eq_zero_of_le hm]
  | cons p rest ih =>
    intro m hm
    simp only [List.foldl_cons, List.map_cons, List.length_cons]
    by_cases hlen : m.insights.length = 100
    · have h1 : (store_insight m p.1 p.2).insights
          = (m.insights ++ [stampIns p]).drop 1 := by
        simp [store_insight, stampIns, hlen]
      have h2 : (store_insight m p.1 p.2).insights.length ≤ 100 := by
        rw [h1]
        simp [hlen]
      have h3 := ih _ h2
      rw [h3, h1]
      rw [List.length_drop, List.length_append]
      rw [← List.drop_append_of_le_length (by simp)]
      rw [List.drop_drop]
      have harr : m.insights ++ [stampIns p] ++ rest.map stampIns
          = m.insights ++ (stampIns p :: rest.map stampIns) := by
        simp
      rw [harr]
      congr 1
      simp [hlen]
      omega
    · have hle : m.insights.length + 1 ≤ 100 := by omega
      have h1 : (store_insight m p.1 p.2).insights
          = m.insights ++ [stampIns p] := by
        simp only [store_insight]
        rw [if_neg (by simp; omega)]
        simp [stampIns]
      have h2 : (store_insight m p.1 p.2).insights.length ≤ 100 := by
        rw [h1]; simp; omega
      have h3 := ih _ h2
      rw [h3, h1]
      have harr : m.insights ++ [stampIns p] ++ rest.map stampIns
          = m.insights ++ (stampIns p :: rest.map stampIns) := by
        simp
      rw [harr]
      congr 1
      simp
      omega

/-- **C5.** Starting from an empty store, any sequence of `store_insight`
calls leaves at most 100 insights, and exactly the suffix of the most
recently inserted ones in original relative order; in particular 101
sequential calls leave exactly 100 insights — all but the first input, in
order. -/
theorem C5_insights_bound :
    (∀ inputs : List (Insight × String),
      (inputs.foldl (fun acc p => store_insight acc p.1 p.2)
          initMemory).insights
        = (inputs.map stampIns).drop (inputs.length - 100) ∧
      (inputs.foldl (fun acc p => store_insight acc p.1 p.2)
          initMemory).insights.length ≤ 100) ∧
    (∀ inputs : List (Insight × String), inputs.length = 101 →
      (inputs.foldl (fun acc p => store_insight acc p.1 p.2)
          initMemory).insights
        = (inputs.map stampIns).drop 1 ∧
      (inputs.foldl (fun acc p => store_insight acc p.1 p.2)
          initMemory).insights.length = 100) := by
  have main : ∀ inputs : List (Insight × String),
      (inputs.foldl (fun acc p => store_insight acc p.1 p.2)
          initMemory).insights
        = (inputs.map stampIns).drop (inputs.length - 100) := by
    intro inputs
    have h := store_insight_foldl_eq inputs initMemory (by simp [initMemory])
    simpa [initMemory] using h
  constructor
  · intro inputs
    refine ⟨main inputs, ?_⟩
    rw [main inputs]
    simp [List.length_drop]
    omega
  · intro inputs h101
    constructor
    · rw [main inputs, h101]
    · rw [main inputs]
      simp [List.length_drop, h101]

/-- Witness for C5's sequential-101 scenario: the general theorem applied
to 101 concrete insights. -/
theorem C5_witness :
    (((List.range 101).map fun j =>
        ((⟨"cat", natStr j, ""⟩ : Insight), "ts")).foldl
      (fun acc p => store_insight acc p.1 p.2) initMemory).insights.length
        = 100 :=
  ((C5_insights_bound.2 _ (by simp)).2)

/-- A KPI with history has at least one recent value whenever at least
one lookback day is requested: the date list is a non-empty prefix of the
sorted keys, and every key looks up successfully. -/
theorem recentValues_ne_nil (h : KpiHistory) (lookback : ℕ) (kpi : String)
    (hh : historyFor h kpi ≠ []) (hl : 1 ≤ lookback) :
    recentValues h lookback kpi ≠ [] := by
  unfold recentValues
  intro hemp
  rw [List.filterMap_eq_nil_iff] at hemp
  have hlen : 1 ≤ ((sortDatesDesc ((historyFor h kpi).map Prod.fst)).take
      lookback).length := by
    rw [List.length_take]
    have h1 : (sortDatesDesc ((historyFor h kpi).map Prod.fst)).length
        = ((historyFor h kpi).map Prod.fst).length := by
      unfold sortDatesDesc
      exact List.length_insertionSort _ _
    have h2 : 1 ≤ (historyFor h kpi).length :=
      List.length_pos.mpr hh
    simp only [h1, List.length_map]
    omega
  obtain ⟨d, hd_mem⟩ := List.exists_mem_of_length_pos hlen
  have hd_in : d ∈ (historyFor h kpi).map Prod.fst := by
    have hsorted : d ∈ sortDatesDesc ((historyFor h kpi).map Prod.fst) :=
      List.take_subset lookback _ hd_mem
    unfold sortDatesDesc at hsorted
    exact (List.perm_insertionSort _ _).subset hsorted
  rw [List.mem_map] at hd_in
  obtain ⟨p, hp, hpe⟩ := hd_in
  have hfind : (historyFor h kpi).find? (fun q => q.1 == d) ≠ none := by
    rw [Ne, List.find?_eq_none]
    push_neg
    exact ⟨p, hp, by simp [hpe]⟩
  exact hfind (Option.map_eq_none.mp (hemp d hd_mem))

/-- **C6.** `compare_with_history` on a store whose history contains no
values for the requested KPIs returns one comparison per KPI with
`historical_avg = change = change_pct = none` and `data_points = 0`, and
never raises (the `ZeroDivisionError` branch of the source is unreachable
when the per-KPI history is empty); a KPI with non-empty history (and at
least one lookback day — at `lookback = 0` the source raises, last
conjunct) gets `change_pct = change / historical_avg * 100`, reported as
`0` when the historical average is zero (each reported field rounded to 2
decimals by the source's `round(·, 2)`). -/
theorem C6_compare_with_history (m : Memory) (cur : List (String × ℚ))
    (lookback : ℕ) (kpi : String) (v : ℚ) (h : KpiHistory) :
    ((∀ p ∈ cur, historyFor m.kpi_history p.1 = []) →
      compare_with_history m cur lookback
        = some (cur.map fun p => (p.1, ⟨p.2, none, none, none, 0⟩))) ∧
    (historyFor h kpi = [] →
      compareOne h lookback kpi v = some ⟨v, none, none, none, 0⟩) ∧
    (historyFor h kpi ≠ [] → 1 ≤ lookback →
      compareOne h lookback kpi v
        = (let vals := recentValues h lookback kpi
           let avg := vals.sum / (vals.length : ℚ)
           some ⟨v, some (pyRound2 avg), some (pyRound2 (v - avg)),
            some (pyRound2 (if avg = 0 then 0 else (v - avg) / avg * 100)),
            vals.length⟩)) ∧
    (historyFor h kpi ≠ [] → compareOne h 0 kpi v = none) := by
  have hempty : ∀ (hst : KpiHistory) (lb : ℕ) (k : String) (c : ℚ),
      historyFor hst k = [] →
      compareOne hst lb k c = some ⟨c, none, none, none, 0⟩ := by
    intro hst lb k c he
    unfold compareOne
    rw [he]
    rfl
  refine ⟨?_, hempty h lookback kpi v, ?_, ?_⟩
  · intro hall
    induction cur with
    | nil => rfl
    | cons p rest ih =>
      rw [compare_with_history,
        hempty m.kpi_history lookback p.1 p.2 (hall p (by simp)),
        ih (fun q hq => hall q (by simp [hq])), List.map_cons]
  · intro hne hl
    unfold compareOne
    rw [if_neg (by simpa [List.length_eq_zero] using hne)]
    rw [if_neg (by
      simpa [List.length_eq_zero] using recentValues_ne_nil h lookback kpi hne hl)]
    by_cases hz : (recentValues h lookback kpi).sum
        / ((recentValues h lookback kpi).length : ℚ) = 0 <;>
      simp [hz]
  · intro hne
    unfold compareOne
    rw [if_neg (by simpa [List.length_eq_zero] using hne)]
    rw [if_pos]
    have : recentValues h 0 kpi = [] := by
      unfold recentValues
      simp
    rw [this]
    rfl

/-- Witness for C6: on an empty store a requested KPI yields the
all-`none` comparison with 0 data points, without raising. -/
theorem C6_witness :
    compare_with_history initMemory [("Revenue", 10)] 30
      = some [("Revenue", ⟨10, none, none, none, 0⟩)] :=
  ((C6_compare_with_history initMemory [("Revenue", 10)] 30 "Revenue" 10
    []).1 (fun _ _ => rfl)).trans rfl

/-- Dataset exhibiting the ddof discrepancy of the z-score method: ten
zeros, one `-5`, one `12` (n = 12, mean 7/12, sum of squared deviations
1979/12). -/
def xsC1 : List ℚ := [0, 0, 0, 0, 0, 0, 0, 0, 0, 0, -5, 12]

/-- **C1 counterexample.** On the column `xsC1` the source flags exactly
the point with value 12: `scipy.stats.zscore` normalises by the
*population* standard deviation (its default `ddof=0`), giving
`|z| = sqrt(18769/1979) ≈ 3.08 > 3` there — although the z-score computed
with the *sample* standard deviation (`ddof=1`), as the claim states, is
`≈ 2.95 ≤ 3`, so the claimed flagged set is empty.  The flagged sets
therefore differ, refuting the claim. -/
theorem C1_counterexample :
    detect_anomalies [("X", xsC1.map some)] "X"
      = .ok ⟨"X", 1, [⟨11, 12⟩], 833/100⟩ ∧
    popZFlag xsC1 12 = true ∧
    sampleZFlag xsC1 12 = false := by
  have hm : meanQ xsC1 = 7/12 := by
    simp [meanQ, xsC1]
    norm_num
  have hss : ssq xsC1 = 1979/12 := by
    simp only [ssq, hm]
    simp only [xsC1, List.map_cons, List.map_nil, List.sum_cons, List.sum_nil]
    norm_num
  have hlen : (xsC1.length : ℚ) = 12 := by
    simp [xsC1]
  have h0 : popZFlag xsC1 0 = false := by
    simp only [popZFlag, hm, hss, hlen]
    rw [decide_eq_false_iff_not]
    norm_num
  have h5 : popZFlag xsC1 (-5) = false := by
    simp only [popZFlag, hm, hss, hlen]
    rw [decide_eq_false_iff_not]
    norm_num
  have h12 : popZFlag xsC1 12 = true := by
    simp only [popZFlag, hm, hss, hlen]
    rw [decide_eq_true_eq]
    norm_num
  have hs12 : sampleZFlag xsC1 12 = false := by
    simp only [sampleZFlag, hm, hss]
    rw [decide_eq_false_iff_not]
    norm_num [xsC1]
  have henum : xsC1.enum.map (fun p => AnomalyPoint.mk p.1 p.2) =
      [⟨0, 0⟩, ⟨1, 0⟩, ⟨2, 0⟩, ⟨3, 0⟩, ⟨4, 0⟩, ⟨5, 0⟩, ⟨6, 0⟩, ⟨7, 0⟩,
       ⟨8, 0⟩, ⟨9, 0⟩, ⟨10, -5⟩, ⟨11, 12⟩] := rfl
  have hanom : anomalyIndices xsC1 = [⟨11, 12⟩] := by
    unfold anomalyIndices
    rw [henum]
    simp [List.filter_cons, h0, h5, h12]
  have hdat : dropna (xsC1.map some) = xsC1 := rfl
  refine ⟨?_, h12, hs12⟩
  unfold detect_anomalies
  rw [show getCol [("X", xsC1.map some)] "X" = some (xsC1.map some) from rfl]
  simp only [hdat, hanom]
  rw [if_neg (by simp [xsC1])]
  have hrate : pyRound2 ((([(⟨11, 12⟩ : AnomalyPoint)].length : ℕ) : ℚ)
      / ((xsC1.length : ℕ) : ℚ) * 100) = 833/100 := by
    simp [pyRound2, roundHalfEven, xsC1]
    norm_num [Int.fract]
  rw [hrate]
  rfl

/-- **C1 amended.** For every numeric column with at least one
non-missing value, the z-score anomaly detection flags exactly the set of
non-missing values whose `|z| > 3.0` where the z-score is computed
against the column's own mean and *population* standard deviation
(`ddof=0`, the `scipy.stats.zscore` default): the reported count is the
size of that set, the detail list its first 10 points in row order, and a
point is flagged iff it is the `i`-th non-missing value and exceeds the
population threshold.  A present column with zero non-missing values
raises `ZeroDivisionError` at the `anomaly_rate` division. -/
theorem C1_zscore_population (df : Table) (column : String) (col : Column)
    (hc : getCol df column = some col) :
    (dropna col = [] →
      detect_anomalies df column = .zeroDivisionError) ∧
    (dropna col ≠ [] →
      ∃ r, detect_anomalies df column = .ok r ∧
        r.anomalies_found = (anomalyIndices (dropna col)).length ∧
        r.anomalies = (anomalyIndices (dropna col)).take 10) ∧
    (∀ i v, AnomalyPoint.mk i v ∈ anomalyIndices (dropna col) ↔
      ((dropna col)[i]? = some v ∧ popZFlag (dropna col) v = true)) := by
  refine ⟨?_, ?_, ?_⟩
  · intro he
    unfold detect_anomalies
    rw [hc]
    simp [he]
  · intro hne
    refine ⟨⟨column, (anomalyIndices (dropna col)).length,
            (anomalyIndices (dropna col)).take 10,
            pyRound2 (((anomalyIndices (dropna col)).length : ℚ)
              / ((dropna col).length : ℚ) * 100)⟩, ?_, rfl, rfl⟩
    unfold detect_anomalies
    rw [hc]
    have hz : (dropna col).length ≠ 0 := by
      simpa [List.length_eq_zero] using hne
    simp only [if_neg hz]
  · intro i v
    unfold anomalyIndices
    rw [List.mem_filter]
    constructor
    · rintro ⟨hmem, hflag⟩
      rw [List.mem_map] at hmem
      obtain ⟨⟨pi, pv⟩, hp, hpe⟩ := hmem
      injection hpe with h1 h2
      subst h1
      subst h2
      exact ⟨List.mk_mem_enum_iff_getElem?.mp hp, hflag⟩
    · rintro ⟨hget, hflag⟩
      refine ⟨List.mem_map.mpr ⟨(i, v), List.mk_mem_enum_iff_getElem?.mpr hget, rfl⟩, hflag⟩

/-- Witness for C1's amended theorem, at the concrete table over `xsC1`
(non-empty data) and at a present all-missing column (the raise path). -/
theorem C1_witness :
    (∃ r, detect_anomalies [("X", xsC1.map some)] "X" = .ok r ∧
      r.anomalies_found = (anomalyIndices (dropna (xsC1.map some))).length) ∧
    detect_anomalies [("Z", [none, none])] "Z" = .zeroDivisionError := by
  constructor
  · obtain ⟨-, h2, -⟩ :=
      C1_zscore_population [("X", xsC1.map some)] "X" (xsC1.map some) rfl
    obtain ⟨r, ha, hb, -⟩ := h2 (by decide)
    exact ⟨r, ha, hb⟩
  · exact (C1_zscore_population [("Z", [none, none])] "Z" [none, none]
      rfl).1 rfl

/-- **C10.** The `total_sessions` counter is incremented by
`store_session` and never decremented by any operation; in every state
reachable without `clear_old_data` it equals the number of stored
sessions; and after a (non-raising) `clear_old_data` that removed an old
session, the counter reported by `get_memory_stats` exceeds the number of
sessions actually retained. -/
theorem C10_total_sessions_counter :
    (∀ m, ReachableNC m → m.total_sessions = m.sessions.length) ∧
    (∀ m op, m.total_sessions ≤ (applyOp m op).total_sessions) ∧
    (∃ m m2, ReachableNC m ∧
      clear_old_data m 2026 10 12 5 = some m2 ∧
      m2.sessions.length < m2.total_sessions ∧
      (get_memory_stats m2).total_sessions = m2.total_sessions) := by
  refine ⟨?_, ?_, ?_⟩
  · intro m hr
    induction hr with
    | init => rfl
    | step m op h hop ih =>
      cases op with
      | storeSession a b c => simp [applyOp, store_session, ih]
      | storeKpiSnapshot d ks => simpa [applyOp, store_kpi_snapshot] using ih
      | storeKpiBatch s => simpa [applyOp, store_kpi_snapshots_batch] using ih
      | storeInsight i now => simpa [applyOp, store_insight] using ih
      | clearOldData y mo d k => simp [Op.isClear] at hop
  · intro m op
    cases op with
    | storeSession a b c => simp [applyOp, store_session]
    | storeKpiSnapshot d ks => simp [applyOp, store_kpi_snapshot]
    | storeKpiBatch s => simp [applyOp, store_kpi_snapshots_batch]
    | storeInsight i now => simp [applyOp, store_insight]
    | clearOldData y mo d k =>
      simp only [applyOp]
      unfold clear_old_data
      split
      · simp
      · simp
  · refine ⟨applyOp initMemory
        (.storeSession "20260101_000000" "2026-01-01T00:00:00" "run"),
      ⟨[], [], [], 1⟩,
      ReachableNC.step initMemory _ ReachableNC.init rfl, ?_, ?_, ?_⟩
    · decide
    · decide
    · rfl

/-- Witness for C10's reachability invariant, at the initial store. -/
theorem C10_witness : initMemory.total_sessions = initMemory.sessions.length :=
  C10_total_sessions_counter.1 initMemory ReachableNC.init

/-! ### Session-id distinctness machinery (claim C7) -/

/-- With enough fuel, `digitsRev` computes `Nat.digits 10`. -/
theorem digitsRev_eq_digits (f : ℕ) :
    ∀ n, n ≤ f → digitsRev f n = Nat.digits 10 n := by
  induction f with
  | zero =>
    intro n hn
    have : n = 0 := Nat.le_zero.mp hn
    simp [this, digitsRev]
  | succ f ih =>
    intro n hn
    by_cases hz : n = 0
    · simp [hz, digitsRev]
    · rw [digitsRev, if_neg hz]
      rw [ih (n / 10) ?_]
      · rw [Nat.digits_def' (by norm_num) (Nat.pos_of_ne_zero hz)]
      · have := Nat.div_lt_self (Nat.pos_of_ne_zero hz) (by norm_num : 1 < 10)
        omega

/-- `Nat.digitChar` is injective below 10. -/
theorem digitChar_inj_lt (a b : ℕ) (ha : a < 10) (hb : b < 10)
    (h : Nat.digitChar a = Nat.digitChar b) : a = b := by
  interval_cases a <;> interval_cases b <;>
    first
      | rfl
      | (exact absurd h (by decide))

/-- Mapping `digitChar` over digit lists (entries `< 10`) is injective. -/
theorem map_digitChar_inj :
    ∀ l1 l2 : List ℕ, (∀ d ∈ l1, d < 10) → (∀ d ∈ l2, d < 10) →
      l1.map Nat.digitChar = l2.map Nat.digitChar → l1 = l2 := by
  intro l1
  induction l1 with
  | nil =>
    intro l2 _ _ h
    cases l2 with
    | nil => rfl
    | cons b t => simp at h
  | cons a t ih =>
    intro l2 h1 h2 h
    cases l2 with
    | nil => simp at h
    | cons b t2 =>
      simp only [List.map_cons, List.cons.injEq] at h
      have hab : a = b :=
        digitChar_inj_lt a b (h1 a (by simp)) (h2 b (by simp)) h.1
      have ht : t = t2 :=
        ih t2 (fun d hd => h1 d (by simp [hd]))
          (fun d hd => h2 d (by simp [hd])) h.2
      rw [hab, ht]

/-- `str(n)` is injective. -/
theorem natStr_injective : ∀ a b : ℕ, natStr a = natStr b → a = b := by
  have digest : ∀ n : ℕ, n ≠ 0 →
      natStr n = String.mk (((Nat.digits 10 n).reverse).map Nat.digitChar) := by
    intro n hn
    rw [natStr, if_neg hn, digitsRev_eq_digits n n le_rfl]
  have digitsOf : ∀ n : ℕ, ∀ d ∈ (Nat.digits 10 n).reverse, d < 10 := by
    intro n d hd
    exact Nat.digits_lt_base (by norm_num) (List.mem_reverse.mp hd)
  intro a b h
  by_cases ha : a = 0 <;> by_cases hb : b = 0
  · rw [ha, hb]
  · exfalso
    rw [ha, digest b hb] at h
    have hdata : ['0'] = ((Nat.digits 10 b).reverse).map Nat.digitChar :=
      congrArg String.data h
    have : [0] = (Nat.digits 10 b).reverse :=
      map_digitChar_inj [0] _ (by simp) (digitsOf b) (by simpa using hdata)
    have hb0 : Nat.digits 10 b = [0] := by
      rw [← List.reverse_reverse (Nat.digits 10 b), ← this]
      rfl
    have := Nat.ofDigits_digits 10 b
    rw [hb0] at this
    simp [Nat.ofDigits] at this
    exact hb this.symm
  · exfalso
    rw [hb, digest a ha] at h
    have hdata : ((Nat.digits 10 a).reverse).map Nat.digitChar = ['0'] :=
      congrArg String.data h
    have : (Nat.digits 10 a).reverse = [0] :=
      map_digitChar_inj _ [0] (digitsOf a) (by simp) (by simpa using hdata)
    have ha0 : Nat.digits 10 a = [0] := by
      rw [← List.reverse_reverse (Nat.digits 10 a), this]
      rfl
    have := Nat.ofDigits_digits 10 a
    rw [ha0] at this
    simp [Nat.ofDigits] at this
    exact ha this.symm
  · rw [digest a ha, digest b hb] at h
    have hdata := congrArg String.data h
    have hrev : (Nat.digits 10 a).reverse = (Nat.digits 10 b).reverse :=
      map_digitChar_inj _ _ (digitsOf a) (digitsOf b) hdata
    have : Nat.digits 10 a = Nat.digits 10 b :=
      List.reverse_injective hrev
    exact Nat.digits_inj_iff.mp this

/-- If two session ids built from equal-length timestamps coincide, the
session counts coincide (the count is the only varying part before the
`'_'` separating it from the fixed-length timestamp). -/
theorem mkSessionId_inj (n1 n2 : ℕ) (t1 t2 : String)
    (hlen : t1.length = t2.length)
    (h : mkSessionId n1 t1 = mkSessionId n2 t2) : n1 = n2 := by
  unfold mkSessionId at h
  have hdata := congrArg String.data h
  simp only [String.data_append, List.append_assoc] at hdata
  have hrest := List.append_cancel_left hdata
  have hlens : (natStr n1).data.length = (natStr n2).data.length := by
    have hl := congrArg List.length hrest
    simp only [List.length_append] at hl
    have ht : t1.data.length = t2.data.length := hlen
    omega
  have hfst := List.append_inj_left hrest hlens
  exact natStr_injective n1 n2 (String.ext hfst)

/-- The ids returned by a sequence of consecutive `store_session` calls
on the same store. -/
def runSessions : Memory → List (String × String × String) → List String
  | _, [] => []
  | m, (a, b, c) :: rest =>
    (store_session m a b c).1 :: runSessions (store_session m a b c).2 rest

/-- Every id produced by a run is built from a count strictly above the
starting session count and a timestamp drawn from the calls. -/
theorem mem_runSessions :
    ∀ (calls : List (String × String × String)) (m : Memory)
      (s : String), s ∈ runSessions m calls →
      ∃ c t, s = mkSessionId c t ∧ m.sessions.length + 1 ≤ c ∧
        t ∈ calls.map (fun p => p.1) := by
  intro calls
  induction calls with
  | nil =>
    intro m s hs
    simp [runSessions] at hs
  | cons p rest ih =>
    intro m s hs
    obtain ⟨a, b, c⟩ := p
    rw [runSessions] at hs
    rcases List.mem_cons.mp hs with h | h
    · exact ⟨m.sessions.length + 1, a, h, le_rfl, by simp⟩
    · obtain ⟨cnt, t, he, hc, ht⟩ := ih _ s h
      refine ⟨cnt, t, he, ?_, by simp [ht]⟩
      have : (store_session m a b c).2.sessions.length
          = m.sessions.length + 1 := by
        simp [store_session]
      omega

/-- **C7.** `store_session` followed by `get_recent_sessions 1` returns
exactly the stored record — same payload, and the id built from the
incremented count; and the ids of consecutive `store_session` calls on
the same store are pairwise distinct (their `strftime('%Y%m%d_%H%M%S')`
timestamps all have length 15, so the strictly increasing counts force
distinct ids). -/
theorem C7_store_session_roundtrip :
    (∀ (m : Memory) (tsId tsIso payload : String),
      get_recent_sessions (store_session m tsId tsIso payload).2 1
        = [⟨mkSessionId (m.sessions.length + 1) tsId, tsIso, payload⟩] ∧
      (store_session m tsId tsIso payload).1
        = mkSessionId (m.sessions.length + 1) tsId) ∧
    (∀ (m : Memory) (calls : List (String × String × String)),
      (∀ p ∈ calls, (p.1 : String).length = 15) →
      (runSessions m calls).Pairwise (· ≠ ·)) := by
  constructor
  · intro m tsId tsIso payload
    constructor
    · unfold get_recent_sessions store_session
      rw [if_neg (by omega)]
      simp only [List.length_append, List.length_cons, List.length_nil]
      rw [show m.sessions.length + (0 + 1) - 1 = m.sessions.length by omega]
      rw [List.drop_append_of_le_length le_rfl, List.drop_length]
      rfl
    · rfl
  · intro m calls
    induction calls generalizing m with
    | nil =>
      intro _
      simp [runSessions]
    | cons p rest ih =>
      intro hts
      obtain ⟨a, b, c⟩ := p
      rw [runSessions]
      refine List.Pairwise.cons ?_ (ih _ (fun q hq => hts q (by simp [hq])))
      intro s hs heq
      obtain ⟨cnt, t, he, hc, ht⟩ := mem_runSessions rest _ s hs
      rw [he] at heq
      have hlen2 : (store_session m a b c).2.sessions.length
          = m.sessions.length + 1 := by
        simp [store_session]
      rw [hlen2] at hc
      have hta : a.length = 15 := hts (a, b, c) (by simp)
      have htt : t.length = 15 := by
        rw [List.mem_map] at ht
        obtain ⟨q, hq, hqe⟩ := ht
        rw [← hqe]
        exact hts q (by simp [hq])
      have : m.sessions.length + 1 = cnt :=
        mkSessionId_inj _ _ a t (by rw [hta, htt]) heq
      omega

/-- Witness for C7: one concrete store/retrieve round-trip and a
two-call run with distinct ids. -/
theorem C7_witness :
    get_recent_sessions
        (store_session initMemory "20260101_000000" "2026-01-01T00:00:00"
          "payload").2 1
      = [⟨"session_1_20260101_000000", "2026-01-01T00:00:00", "payload"⟩] ∧
    (runSessions initMemory
      [("20260101_000000", "i1", "p1"),
       ("20260101_000001", "i2", "p2")]).Pairwise (· ≠ ·) := by
  constructor
  · rw [(C7_store_session_roundtrip.1 initMemory "20260101_000000"
      "2026-01-01T00:00:00" "payload").1]
    rfl
  · exact C7_store_session_roundtrip.2 initMemory _ (by decide)

/-! ### Pair-enumeration lemmas (claim C9) -/

/-- Both components of an enumerated pair come from the column list. -/
theorem mem_colPairs :
    ∀ (l : List String) (p : String × String),
      p ∈ colPairs l → p.1 ∈ l ∧ p.2 ∈ l := by
  intro l
  induction l with
  | nil =>
    intro p hp
    simp [colPairs] at hp
  | cons c rest ih =>
    intro p hp
    rw [colPairs] at hp
    rcases List.mem_append.mp hp with h | h
    · rw [List.mem_map] at h
      obtain ⟨d, hd, he⟩ := h
      rw [← he]
      exact ⟨by simp, by simp [hd]⟩
    · obtain ⟨h1, h2⟩ := ih p h
      exact ⟨by simp [h1], by simp [h2]⟩

/-- Over distinct column names, no enumerated pair is a self-pair. -/
theorem colPairs_ne :
    ∀ (l : List String), l.Nodup → ∀ p ∈ colPairs l, p.1 ≠ p.2 := by
  intro l
  induction l with
  | nil =>
    intro _ p hp
    simp [colPairs] at hp
  | cons c rest ih =>
    intro h p hp
    rw [colPairs] at hp
    rcases List.mem_append.mp hp with hm | hm
    · rw [List.mem_map] at hm
      obtain ⟨d, hd, he⟩ := hm
      rw [← he]
      intro hcd
      exact (List.nodup_cons.mp h).1 ((show c = d from hcd).symm ▸ hd)
    · exact ih (List.nodup_cons.mp h).2 p hm

/-- Over distinct column names, the row-major enumeration contains each
unordered pair at most once. -/
theorem colPairs_pairwise :
    ∀ (l : List String), l.Nodup →
      (colPairs l).Pairwise (fun p q =>
        ¬(p.1 = q.1 ∧ p.2 = q.2) ∧ ¬(p.1 = q.2 ∧ p.2 = q.1)) := by
  intro l
  induction l with
  | nil =>
    intro _
    simp [colPairs]
  | cons c rest ih =>
    intro h
    obtain ⟨hc, hrest⟩ := List.nodup_cons.mp h
    rw [colPairs, List.pairwise_append]
    refine ⟨?_, ih hrest, ?_⟩
    · rw [List.pairwise_map]
      refine List.Pairwise.imp_of_mem ?_ hrest
      intro d d' hd hd' hne
      constructor
      · rintro ⟨-, h2⟩
        exact hne h2
      · rintro ⟨h1, -⟩
        exact hc ((show c = d' from h1).symm ▸ hd')
    · intro a ha b hb
      rw [List.mem_map] at ha
      obtain ⟨d, hd, he⟩ := ha
      obtain ⟨hb1, hb2⟩ := mem_colPairs rest b hb
      rw [← he]
      constructor
      · rintro ⟨h1, -⟩
        exact hc ((show c = b.1 from h1).symm ▸ hb1)
      · rintro ⟨h1, -⟩
        exact hc ((show c = b.2 from h1).symm ▸ hb2)

/-- Each entry records the pair sitting at its enumeration position. -/
theorem mem_corrEntries (valid : List String)
    (coef : String → String → ℚ) (e : CorrPair)
    (he : e ∈ corrEntries valid coef) :
    (colPairs valid)[e.idx]? = some (e.col1, e.col2) := by
  unfold corrEntries at he
  rw [List.mem_map] at he
  obtain ⟨⟨i, q⟩, hq, hqe⟩ := he
  rw [← hqe]
  exact List.mk_mem_enum_iff_getElem?.mp hq

/-- **C9 counterexample.** The claim quantifies over every column list,
but a request containing a duplicate name defeats it: for the request
`['A', 'A']` against a table with numeric column `A`, the positional
`i < j` enumeration emits the pair `(A, A)` — pandas permits duplicate
column selection, and `df[['A','A']].corr()` relates the two copies of
the same data with coefficient `1.0` — so `top_correlations` contains a
self-pair. -/
theorem C9_counterexample :
    correlation_matrix ["A"] ["A", "A"] (fun _ _ => 1)
      = some [CorrPair.mk "A" "A" 1 0] ∧
    (CorrPair.mk "A" "A" (1 : ℚ) 0).col1
      = (CorrPair.mk "A" "A" (1 : ℚ) 0).col2 :=
  ⟨rfl, rfl⟩

/-- **C9 amended.** For every table and *duplicate-free* column request
with at least 2 numeric columns present, the `top_correlations` list is
sorted by descending absolute coefficient, has length at most 5, contains
no self-pair and no repeated unordered pair, and ties in `|r|` keep the
row-major enumeration order of the column pairs (Python's stable sort). -/
theorem C9_correlation_matrix_top (names columns : List String)
    (coef : String → String → ℚ) (hnd : columns.Nodup) (out : List CorrPair)
    (hout : correlation_matrix names columns coef = some out) :
    out.length ≤ 5 ∧
    out.Pairwise (fun a b => |b.coef| ≤ |a.coef|) ∧
    out.Pairwise (fun a b =>
      |b.coef| < |a.coef| ∨ (|a.coef| = |b.coef| ∧ a.idx < b.idx)) ∧
    (∀ e ∈ out, e.col1 ≠ e.col2) ∧
    out.Pairwise (fun a b =>
      ¬(a.col1 = b.col1 ∧ a.col2 = b.col2) ∧
      ¬(a.col1 = b.col2 ∧ a.col2 = b.col1)) := by
  unfold correlation_matrix at hout
  by_cases hlt : (columns.filter (fun c => names.contains c)).length < 2
  · rw [if_pos hlt] at hout
    exact absurd hout (by simp)
  rw [if_neg hlt] at hout
  have hvn : (columns.filter (fun c => names.contains c)).Nodup :=
    hnd.filter _
  have hout2 : out = (List.insertionSort corrRank
      (corrEntries (columns.filter (fun c => names.contains c)) coef)).take 5 :=
    (Option.some.inj hout).symm
  have hsorted := List.sorted_insertionSort corrRank
    (corrEntries (columns.filter (fun c => names.contains c)) coef)
  have hperm := List.perm_insertionSort corrRank
    (corrEntries (columns.filter (fun c => names.contains c)) coef)
  have htake : out.Sublist (List.insertionSort corrRank
      (corrEntries (columns.filter (fun c => names.contains c)) coef)) := by
    rw [hout2]
    exact List.take_sublist 5 _
  have hpw : out.Pairwise corrRank := hsorted.sublist htake
  have hidx_ents : ((corrEntries (columns.filter
      (fun c => names.contains c)) coef).map CorrPair.idx).Nodup := by
    have hmap : (corrEntries (columns.filter
        (fun c => names.contains c)) coef).map CorrPair.idx
        = List.range (colPairs (columns.filter
            (fun c => names.contains c))).length := by
      unfold corrEntries
      rw [List.map_map]
      exact List.enum_map_fst _
    rw [hmap]
    exact List.nodup_range _
  have hidx_out : (out.map CorrPair.idx).Nodup :=
    List.Nodup.sublist (htake.map _)
      (((hperm.map CorrPair.idx).nodup_iff).mpr hidx_ents)
  have hidx_pw : out.Pairwise (fun a b => a.idx ≠ b.idx) :=
    List.pairwise_map.mp hidx_out
  have hsub : ∀ e ∈ out, e ∈ corrEntries (columns.filter
      (fun c => names.contains c)) coef :=
    fun e he => (hperm.mem_iff).mp (htake.subset he)
  refine ⟨?_, ?_, ?_, ?_, ?_⟩
  · rw [hout2]
    exact List.length_take_le 5 _
  · refine hpw.imp ?_
    intro a b hr
    rcases hr with h | ⟨he, -⟩
    · exact le_of_lt h
    · exact le_of_eq he.symm
  · refine (hpw.and hidx_pw).imp ?_
    rintro a b ⟨hr, hne⟩
    rcases hr with h | ⟨he, hle⟩
    · exact Or.inl h
    · exact Or.inr ⟨he, lt_of_le_of_ne hle hne⟩
  · intro e he
    have hg := mem_corrEntries _ coef e (hsub e he)
    have hmem : (e.col1, e.col2) ∈ colPairs (columns.filter
        (fun c => names.contains c)) := by
      rcases List.getElem?_eq_some.mp hg with ⟨hlt2, hget⟩
      rw [← hget]
      exact List.getElem_mem _
    exact colPairs_ne _ hvn _ hmem
  · have hcidx := List.pairwise_iff_getElem.mp (colPairs_pairwise _ hvn)
    refine List.Pairwise.imp_of_mem ?_ hidx_pw
    intro a b ha hb hne
    have hga := mem_corrEntries _ coef a (hsub a ha)
    have hgb := mem_corrEntries _ coef b (hsub b hb)
    rcases List.getElem?_eq_some.mp hga with ⟨hia, hgeta⟩
    rcases List.getElem?_eq_some.mp hgb with ⟨hib, hgetb⟩
    rcases Nat.lt_or_ge a.idx b.idx with hlt2 | hge
    · have hd := hcidx a.idx b.idx hia hib hlt2
      rw [hgeta, hgetb] at hd
      exact ⟨fun hx => hd.1 ⟨hx.1, hx.2⟩, fun hx => hd.2 ⟨hx.1, hx.2⟩⟩
    · have hlt3 : b.idx < a.idx := lt_of_le_of_ne hge (Ne.symm hne)
      have hd := hcidx b.idx a.idx hib hia hlt3
      rw [hgeta, hgetb] at hd
      constructor
      · rintro ⟨h1, h2⟩
        exact hd.1 ⟨h1.symm, h2.symm⟩
      · rintro ⟨h1, h2⟩
        exact hd.2 ⟨h2.symm, h1.symm⟩

/-- Witness for C9 at a concrete two-column table (a single pair, so the
top list is that pair alone). -/
theorem C9_witness :
    (CorrPair.mk "A" "B" (1 : ℚ) 0).col1
      ≠ (CorrPair.mk "A" "B" (1 : ℚ) 0).col2 :=
  (C9_correlation_matrix_top ["A", "B"] ["A", "B"] (fun _ _ => 1)
    (by decide) [CorrPair.mk "A" "B" 1 0] rfl).2.2.2.1
    (CorrPair.mk "A" "B" 1 0) (by simp)

end AutoOps
